import Mathlib

/-!
Verification of the core utilities of the vibe-hub developer toolbox:
the ColorMath component (hex/RGB/HSL conversions and palette generation)
and the MarkdownRenderer component (line-oriented Markdown-to-HTML with
HTML escaping), shallowly embedded from the TypeScript source.

Strings are modelled as lists of Unicode code points (`List Nat`).
JavaScript numbers are modelled as exact rationals (`ℚ`): every arithmetic
operation the embedded code performs is exact on the inputs of interest, and
`Math.round` is modelled as `⌊x + 1/2⌋`, its documented semantics.
-/

-- Batteries marks the arithmetic on `Rat` irreducible; restore unfolding so that
-- concrete color computations can be settled by `decide`.
attribute [local semireducible] Rat.add Rat.sub Rat.mul Rat.inv

namespace VibeHub

/-! ### Strings as lists of code points -/

abbrev Str := List Nat

def str (s : String) : Str := s.data.map Char.toNat

/-- The whitespace class used by JavaScript `trim` and `\s`
(ASCII whitespace, NBSP, line/paragraph separators, BOM). -/
def isJsWhitespace (c : Nat) : Bool :=
  c = 9 || c = 10 || c = 11 || c = 12 || c = 13 || c = 32 ||
  c = 160 || c = 8232 || c = 8233 || c = 65279

/-- JavaScript `String.prototype.trim`. -/
def jsTrim (s : Str) : Str :=
  ((s.dropWhile isJsWhitespace).reverse.dropWhile isJsWhitespace).reverse

/-- `toLowerCase`, restricted to the ASCII range (all inputs of interest are ASCII). -/
def toLowerCode (c : Nat) : Nat := if 65 ≤ c ∧ c ≤ 90 then c + 32 else c

/-- `toUpperCase`, restricted to the ASCII range. -/
def toUpperCode (c : Nat) : Nat := if 97 ≤ c ∧ c ≤ 122 then c - 32 else c

/-- The character class `[0-9a-fA-F]` of `VALID_HEX_REGEX` / `SHORT_HEX_REGEX`. -/
def isHexDigitCode (c : Nat) : Bool :=
  (48 ≤ c && c ≤ 57) || (97 ≤ c && c ≤ 102) || (65 ≤ c && c ≤ 70)

/-- An upper-case hex digit `[0-9A-F]` (the alphabet of `normalizeHex` outputs). -/
def isUpperHexCode (c : Nat) : Bool := (48 ≤ c && c ≤ 57) || (65 ≤ c && c ≤ 70)

/-- `replace(/^#/, "")`: drop one leading `#` (code 35) if present. -/
def stripLeadingHash : Str → Str
  | x :: rest => if x = 35 then rest else x :: rest
  | [] => []

/-- `normalizeHex` from the source: trim, strip a leading `#`, lower-case;
then branch on the 6-digit and 3-digit hex patterns, falling back to `#529DFF`. -/
def normalizeHex (hex : Str) : Str :=
  let trimmed := (stripLeadingHash (jsTrim hex)).map toLowerCode
  if trimmed.length = 6 ∧ trimmed.all isHexDigitCode then
    (35 :: trimmed).map toUpperCode
  else if trimmed.length = 3 ∧ trimmed.all isHexDigitCode then
    (35 :: trimmed.flatMap (fun c => [c, c])).map toUpperCode
  else
    str "#529DFF"

/-- Value of a hex digit, as used by `parseInt(..., 16)`
(only ever applied to valid hex digits here). -/
def hexDigitVal (c : Nat) : Nat :=
  if 48 ≤ c ∧ c ≤ 57 then c - 48
  else if 97 ≤ c ∧ c ≤ 102 then c - 87
  else if 65 ≤ c ∧ c ≤ 70 then c - 55
  else 0

/-- `parseInt(s, 16)` on a string of hex digits. -/
def parseHexNat (s : Str) : Nat := s.foldl (fun acc c => 16 * acc + hexDigitVal c) 0

structure RgbColor where
  r : Int
  g : Int
  b : Int
deriving DecidableEq

structure HslColor where
  h : Int
  s : Int
  l : Int
deriving DecidableEq

/-- `hexToRgb`: normalize, parse the 24-bit integer, extract channels by shifts/masks. -/
def hexToRgb (hex : Str) : RgbColor :=
  let normalized := stripLeadingHash (normalizeHex hex)
  let num := parseHexNat normalized
  { r := (((num >>> 16) &&& 255 : Nat) : Int)
    g := (((num >>> 8) &&& 255 : Nat) : Int)
    b := ((num &&& 255 : Nat) : Int) }

/-- Lower-case hex digit character for a value `d < 16` (as `toString(16)` produces). -/
def lowerHexDigit (d : Nat) : Nat := if d < 10 then 48 + d else 87 + d

/-- Big-endian base-16 digits, with structural recursion on a fuel argument so the
definition reduces in the kernel; `fuel ≥ n` always suffices since `n / 16 < n`. -/
def natHexDigitsAux : Nat → Nat → Str
  | 0, n => [lowerHexDigit n]
  | fuel + 1, n =>
    if n < 16 then [lowerHexDigit n]
    else natHexDigitsAux fuel (n / 16) ++ [lowerHexDigit (n % 16)]

/-- `n.toString(16)` for a natural number: big-endian base-16 digits. -/
def natHexDigits (n : Nat) : Str := natHexDigitsAux n n

/-- `padStart(2, "0")`. -/
def padStart2 (s : Str) : Str := List.replicate (2 - s.length) 48 ++ s

/-- One channel of `rgbToHex`: `component.toString(16).padStart(2, "0").toUpperCase()`.
Channels are JavaScript numbers; the embedded domain is the nonnegative integers,
which covers every value the verified code ever formats. -/
def toHexComponent (n : Int) : Str := (padStart2 (natHexDigits n.toNat)).map toUpperCode

/-- `rgbToHex`: `#` followed by the three formatted channels. Performs no clamping. -/
def rgbToHex (c : RgbColor) : Str :=
  35 :: (toHexComponent c.r ++ toHexComponent c.g ++ toHexComponent c.b)

/-- The source's `clamp(value, min, max) = Math.min(Math.max(value, min), max)`. -/
def clamp (value lo hi : Int) : Int := min (max value lo) hi

/-- JavaScript `Math.round`: the closest integer, ties toward `+∞`; i.e. `⌊x + 1/2⌋`. -/
def jsRound (x : ℚ) : Int := ⌊x + 1/2⌋

/-- JavaScript `%` on integers: truncated remainder (sign of the dividend). -/
def jsMod (a b : Int) : Int := Int.tmod a b

/-- `rgbToHsl`: the standard min/max-channel algorithm with the source's branch
structure (`switch` on which normalized channel attained the max, first match wins). -/
def rgbToHsl (c : RgbColor) : HslColor :=
  let rNorm : ℚ := (c.r : ℚ) / 255
  let gNorm : ℚ := (c.g : ℚ) / 255
  let bNorm : ℚ := (c.b : ℚ) / 255
  let maxC := max rNorm (max gNorm bNorm)
  let minC := min rNorm (min gNorm bNorm)
  let l := (maxC + minC) / 2
  let hs : Int × Int :=
    if maxC = minC then (0, 0)
    else
      let d := maxC - minC
      let s := if l > 1/2 then d / (2 - maxC - minC) else d / (maxC + minC)
      let hRaw :=
        if maxC = rNorm then (gNorm - bNorm) / d + (if gNorm < bNorm then 6 else 0)
        else if maxC = gNorm then (bNorm - rNorm) / d + 2
        else (rNorm - gNorm) / d + 4
      (jsRound (hRaw / 6 * 360), jsRound (s * 100))
  { h := hs.1, s := hs.2, l := jsRound (l * 100) }

/-- The piecewise hue-to-channel helper `hueToRgb(p, q, t)`. -/
def hueToRgb (p q t : ℚ) : ℚ :=
  let t1 := if t < 0 then t + 1 else t
  let t2 := if t1 > 1 then t1 - 1 else t1
  if t2 < 1/6 then p + (q - p) * 6 * t2
  else if t2 < 1/2 then q
  else if t2 < 2/3 then p + (q - p) * (2/3 - t2) * 6
  else p

/-- `hslToRgb`: clamp saturation/lightness to `[0,100]`, normalize to `[0,1]`;
gray when saturation is 0; otherwise the two-parameter `(p,q)` construction with
the hue wrapped into `[0,360)` by `((h % 360) + 360) % 360`. -/
def hslToRgb (c : HslColor) : RgbColor :=
  let saturation : ℚ := (clamp c.s 0 100 : ℚ) / 100
  let lightness : ℚ := (clamp c.l 0 100 : ℚ) / 100
  if saturation = 0 then
    let gray := jsRound (lightness * 255)
    { r := gray, g := gray, b := gray }
  else
    let q := if lightness < 1/2 then lightness * (1 + saturation)
             else lightness + saturation - lightness * saturation
    let p := 2 * lightness - q
    let hFraction := jsMod (jsMod c.h 360 + 360) 360
    let hk : ℚ := (hFraction : ℚ) / 360
    { r := jsRound (hueToRgb p q (hk + 1/3) * 255)
      g := jsRound (hueToRgb p q hk * 255)
      b := jsRound (hueToRgb p q (hk - 1/3) * 255) }

def hslToHex (c : HslColor) : Str := rgbToHex (hslToRgb c)

structure Palette where
  shades : List Str
  complementary : List Str
deriving DecidableEq

def shadeOffsets : List Int := [-28, -16, 0, 12, 22]

def complementaryOffsets : List Int := [-12, 0, 12]

/-- `generatePalette`: one base HSL; five shades at the lightness offsets
(saturation offset half of each), three complementary tones at hue
`base + 180 + offset` wrapped mod 360. The divisions `offset / 2` and
`offset / 4` are exact for every listed offset, so integer division agrees
with the source's exact floating-point division. -/
def generatePalette (baseHex : Str) : Palette :=
  let baseHsl := rgbToHsl (hexToRgb baseHex)
  { shades := shadeOffsets.map (fun offset =>
      hslToHex { h := baseHsl.h
                 s := clamp (baseHsl.s + offset / 2) 12 96
                 l := clamp (baseHsl.l + offset) 8 94 })
    complementary := complementaryOffsets.map (fun offset =>
      hslToHex { h := jsMod (baseHsl.h + 180 + offset + 360) 360
                 s := clamp (baseHsl.s + offset / 4) 18 96
                 l := clamp (baseHsl.l + offset / 2) 10 92 }) }

/-! ### MarkdownRenderer -/

/-- One global single-character replacement, `value.replace(/c/g, repl)`:
the replacement text is emitted, never rescanned. -/
def replaceChar (c : Nat) (repl : Str) : Str → Str
  | [] => []
  | x :: xs => if x = c then repl ++ replaceChar c repl xs else x :: replaceChar c repl xs

/-- `escapeHtml`: the source's five sequential global replacements, in order
`&`, `<`, `>`, `"`, `'`. -/
def escapeHtml (value : Str) : Str :=
  replaceChar 39 (str "&#039;")
    (replaceChar 34 (str "&quot;")
      (replaceChar 62 (str "&gt;")
        (replaceChar 60 (str "&lt;")
          (replaceChar 38 (str "&amp;") value))))

/-- The line terminators that regex `.` does not match (`\n`, `\r`, U+2028, U+2029). -/
def isLineTerm (c : Nat) : Bool := c = 10 || c = 13 || c = 8232 || c = 8233

/-- Does the list start with the two-character delimiter `d d`? -/
def closesWith2 (d : Nat) : Str → Bool
  | a :: b :: _ => a == d && b == d
  | _ => false

/-- Lazy search for the closing delimiter of `/dd(.+?)dd/`: the least `k ≥ 1` such
that the first `k` characters match `.` and are followed by `d d`. -/
def findLazyClose2 (d : Nat) : Str → Option Nat
  | [] => none
  | x :: xs =>
    if isLineTerm x then none
    else if closesWith2 d xs then some 1
    else (findLazyClose2 d xs).map (· + 1)

/-- Global replacement of `/dd(.+?)dd/g` by `left ++ content ++ right`, scanning
left to right exactly as the regex engine does (advance one character on failure,
continue after the match on success). Structural recursion on a fuel argument
bounded below by the string length, which each step strictly decreases. -/
def replaceLazy2Aux (d : Nat) (left right : Str) : Nat → Str → Str
  | 0, s => s
  | _ + 1, [] => []
  | _ + 1, [x] => [x]
  | fuel + 1, x :: y :: xs =>
    if x = d ∧ y = d then
      match findLazyClose2 d xs with
      | some k => left ++ xs.take k ++ right ++ replaceLazy2Aux d left right fuel (xs.drop (k + 2))
      | none => x :: replaceLazy2Aux d left right fuel (y :: xs)
    else x :: replaceLazy2Aux d left right fuel (y :: xs)

def replaceLazy2 (d : Nat) (left right : Str) (s : Str) : Str :=
  replaceLazy2Aux d left right s.length s

/-- Lazy search for the closing delimiter of `/d(.+?)d/`. -/
def findLazyClose1 (d : Nat) : Str → Option Nat
  | [] => none
  | x :: xs =>
    if isLineTerm x then none
    else if xs.head? = some d then some 1
    else (findLazyClose1 d xs).map (· + 1)

/-- Global replacement of `/d(.+?)d/g` (the `_italic_` rule). -/
def replaceLazy1Aux (d : Nat) (left right : Str) : Nat → Str → Str
  | 0, s => s
  | _ + 1, [] => []
  | fuel + 1, x :: xs =>
    if x = d then
      match findLazyClose1 d xs with
      | some k => left ++ xs.take k ++ right ++ replaceLazy1Aux d left right fuel (xs.drop (k + 1))
      | none => x :: replaceLazy1Aux d left right fuel xs
    else x :: replaceLazy1Aux d left right fuel xs

def replaceLazy1 (d : Nat) (left right : Str) (s : Str) : Str :=
  replaceLazy1Aux d left right s.length s

/-- Closing search for `/(?<!\*)\*(?!\*)(.+?)(?<!\*)\*(?!\*)/`: least `k ≥ 1` with
the `k` content characters matching `.`, the character at `k` a `*` whose
predecessor (the last content character) is not `*` and whose successor is not `*`. -/
def findEmClose : Str → Option Nat
  | [] => none
  | x :: xs =>
    if isLineTerm x then none
    else if x ≠ 42 ∧ xs.head? = some 42 ∧ xs.tail.head? ≠ some 42 then some 1
    else (findEmClose xs).map (· + 1)

/-- Global replacement of the single-`*` emphasis regex, threading the previous
character of the original string for the opening lookbehind. -/
def replaceEmStarAux (left right : Str) : Nat → Option Nat → Str → Str
  | 0, _, s => s
  | _ + 1, _, [] => []
  | fuel + 1, prev, x :: xs =>
    if x = 42 ∧ prev ≠ some 42 ∧ xs.head? ≠ some 42 then
      match findEmClose xs with
      | some k =>
        left ++ xs.take k ++ right ++ replaceEmStarAux left right fuel (some 42) (xs.drop (k + 1))
      | none => x :: replaceEmStarAux left right fuel (some x) xs
    else x :: replaceEmStarAux left right fuel (some x) xs

def replaceEmStar (left right : Str) (s : Str) : Str :=
  replaceEmStarAux left right s.length none s

/-- Closing search for `` /`([^`]+)`/ ``: least `k ≥ 1` with `k` non-backtick
characters followed by a backtick (newlines are allowed inside `[^`]`). -/
def findTickClose : Str → Option Nat
  | [] => none
  | x :: xs =>
    if x = 96 then none
    else if xs.head? = some 96 then some 1
    else (findTickClose xs).map (· + 1)

/-- Global replacement of the inline-code regex. -/
def replaceCodeTickAux : Nat → Str → Str
  | 0, s => s
  | _ + 1, [] => []
  | fuel + 1, x :: xs =>
    if x = 96 then
      match findTickClose xs with
      | some k =>
        str "<code>" ++ xs.take k ++ str "</code>" ++ replaceCodeTickAux fuel (xs.drop (k + 1))
      | none => x :: replaceCodeTickAux fuel xs
    else x :: replaceCodeTickAux fuel xs

def replaceCodeTick (s : Str) : Str := replaceCodeTickAux s.length s

/-- Index of the first occurrence of `stop`, provided at least one other
character precedes it (the `[^x]+` content of the link regex; newlines allowed). -/
def findCharIdx (stop : Nat) : Str → Option Nat
  | [] => none
  | x :: xs =>
    if x = stop then none
    else if xs.head? = some stop then some 1
    else (findCharIdx stop xs).map (· + 1)

/-- Parse `text](url)` after an opening `[`: the text length and url length of
`/\[([^\]]+)\]\(([^)]+)\)/`, if the full pattern matches here. -/
def linkParts (xs : Str) : Option (Nat × Nat) :=
  match findCharIdx 93 xs with
  | none => none
  | some k =>
    match xs.drop (k + 1) with
    | 40 :: rest =>
      match findCharIdx 41 rest with
      | none => none
      | some m => some (k, m)
    | _ => none

/-- Global replacement of the link regex by
`<a href="url" target="_blank" rel="noopener noreferrer">text</a>`. -/
def replaceLinkAux : Nat → Str → Str
  | 0, s => s
  | _ + 1, [] => []
  | fuel + 1, x :: xs =>
    if x = 91 then
      match linkParts xs with
      | some (k, m) =>
        str "<a href=\"" ++ (xs.drop (k + 2)).take m ++
          str "\" target=\"_blank\" rel=\"noopener noreferrer\">" ++ xs.take k ++ str "</a>" ++
          replaceLinkAux fuel (xs.drop (k + 2 + m + 1))
      | none => x :: replaceLinkAux fuel xs
    else x :: replaceLinkAux fuel xs

def replaceLink (s : Str) : Str := replaceLinkAux s.length s

/-- `applyInlineFormatting`: HTML-escape first, then the source's six regex
substitutions in order: `**bold**`, `__bold__`, `*em*`, `_em_`, `` `code` ``, links. -/
def applyInlineFormatting (text : Str) : Str :=
  replaceLink
    (replaceCodeTick
      (replaceLazy1 95 (str "<em>") (str "</em>")
        (replaceEmStar (str "<em>") (str "</em>")
          (replaceLazy2 95 (str "<strong>") (str "</strong>")
            (replaceLazy2 42 (str "<strong>") (str "</strong>")
              (escapeHtml text))))))

/-- `markdown.replace(/\r\n/g, "\n")`: a left-to-right scan collapsing each
CR-LF pair (13, 10) into a single LF. -/
def replaceCRLF : Str → Str
  | [] => []
  | [x] => [x]
  | x :: y :: rest =>
    if x = 13 ∧ y = 10 then 10 :: replaceCRLF rest else x :: replaceCRLF (y :: rest)

/-- `split("\n")`. -/
def splitNl : Str → List Str
  | [] => [[]]
  | x :: rest =>
    if x = 10 then [] :: splitNl rest
    else
      match splitNl rest with
      | l :: ls => (x :: l) :: ls
      | [] => [[x]]

/-- `join("\n")`. -/
def joinNl : List Str → Str
  | [] => []
  | [l] => l
  | l :: l2 :: rest => l ++ 10 :: joinNl (l2 :: rest)

/-- `line.trim().startsWith("```")`. -/
def lineIsFence (line : Str) : Bool := (str "```").isPrefixOf (jsTrim line)

/-- The heading regex `^(#{1,6})\s+(.*)$`: 1–6 leading `#`, at least one
whitespace character, and a remainder free of line terminators (`.` excludes
them and `$` only matches at the end). Returns the level and the remainder
after the maximal whitespace run. -/
def headingParse (line : Str) : Option (Nat × Str) :=
  let n := (line.takeWhile (fun c => c == 35)).length
  if 1 ≤ n ∧ n ≤ 6 then
    match line.drop n with
    | c :: r =>
      if isJsWhitespace c then
        let content := r.dropWhile isJsWhitespace
        if content.all (fun ch => !(isLineTerm ch)) then some (n, content) else none
      else none
    | [] => none
  else none

/-- The list-item regex `^\s*[-*+]\s+(.*)$`. -/
def listItemParse (line : Str) : Option Str :=
  match line.dropWhile isJsWhitespace with
  | b :: r =>
    if b = 45 ∨ b = 42 ∨ b = 43 then
      match r with
      | c :: _ =>
        if isJsWhitespace c then
          let content := r.dropWhile isJsWhitespace
          if content.all (fun ch => !(isLineTerm ch)) then some content else none
        else none
      | [] => none
    else none
  | [] => none

/-- The renderer's mutable accumulation variables. -/
structure MDState where
  htmlParts : List Str
  paragraph : List Str
  listItems : List Str
  inCodeBlock : Bool
  codeBuffer : List Str
deriving DecidableEq

def flushParagraph (st : MDState) : MDState :=
  if st.paragraph = [] then st
  else
    { st with
      htmlParts := st.htmlParts ++
        [str "<p>" ++ applyInlineFormatting (jsTrim (joinNl st.paragraph)) ++
          str "</p>"]
      paragraph := [] }

def flushList (st : MDState) : MDState :=
  if st.listItems = [] then st
  else
    { st with
      htmlParts := st.htmlParts ++
        [str "<ul>" ++
          (st.listItems.map
            (fun item => str "<li>" ++ applyInlineFormatting (jsTrim item) ++ str "</li>")).flatten ++
          str "</ul>"]
      listItems := [] }

def flushCode (st : MDState) : MDState :=
  if st.codeBuffer = [] then st
  else
    { st with
      htmlParts := st.htmlParts ++
        [str "<pre><code>" ++ escapeHtml (joinNl st.codeBuffer) ++
          str "</code></pre>"]
      codeBuffer := [] }

/-- `<hN>content</hN>` for `1 ≤ N ≤ 6` (a single decimal digit). -/
def headingTag (level : Nat) (content : Str) : Str :=
  str "<h" ++ [48 + level] ++ str ">" ++ content ++ str "</h" ++ [48 + level] ++ str ">"

/-- The body of the source's `lines.forEach`, one line at a time. -/
def processLine (st : MDState) (line : Str) : MDState :=
  if lineIsFence line ∧ st.inCodeBlock = false then
    let st := flushList (flushParagraph st)
    { st with inCodeBlock := true }
  else if lineIsFence line ∧ st.inCodeBlock = true then
    let st := flushCode st
    { st with inCodeBlock := false }
  else if st.inCodeBlock then
    { st with codeBuffer := st.codeBuffer ++ [line] }
  else if jsTrim line = [] then
    flushList (flushParagraph st)
  else
    match headingParse line with
    | some (level, content) =>
      let st := flushList (flushParagraph st)
      { st with
        htmlParts := st.htmlParts ++ [headingTag level (applyInlineFormatting (jsTrim content))] }
    | none =>
      match listItemParse line with
      | some item =>
        let st := flushParagraph st
        { st with listItems := st.listItems ++ [jsTrim item] }
      | none =>
        let st := flushList st
        { st with paragraph := st.paragraph ++ [jsTrim line] }

def initialMDState : MDState := ⟨[], [], [], false, []⟩

/-- `renderMarkdown`: normalize CRLF, split into lines, run the line scan, flush
what remains (code first, only if still inside a fence; then paragraph, then
list), and concatenate the parts with no separator. -/
def renderMarkdown (markdown : Str) : Str :=
  let lines := splitNl (replaceCRLF markdown)
  let st := lines.foldl processLine initialMDState
  let st := if st.inCodeBlock then flushCode st else st
  let st := flushList (flushParagraph st)
  st.htmlParts.flatten

/-- Does `pat` occur as a contiguous substring? -/
def occursIn (pat : Str) : Str → Bool
  | [] => pat.isEmpty
  | x :: xs => pat.isPrefixOf (x :: xs) || occursIn pat xs

/-- A `#`-prefixed 6-digit upper-case hex string (the shape of every palette entry). -/
def isPaletteHex (s : Str) : Bool :=
  match s with
  | x :: ds => x == 35 && ds.length == 6 && ds.all isUpperHexCode
  | [] => false

/-! ### Character-level lemmas -/

theorem hex_not_ws {c : Nat} (h : isHexDigitCode c = true) : isJsWhitespace c = false := by
  simp only [isHexDigitCode, Bool.or_eq_true, Bool.and_eq_true, decide_eq_true_eq] at h
  simp only [isJsWhitespace, Bool.or_eq_false_iff, decide_eq_false_iff_not]
  omega

theorem hex_ne_hash {c : Nat} (h : isHexDigitCode c = true) : c ≠ 35 := by
  simp only [isHexDigitCode, Bool.or_eq_true, Bool.and_eq_true, decide_eq_true_eq] at h
  omega

theorem hex_toLower_hex {c : Nat} (h : isHexDigitCode c = true) :
    isHexDigitCode (toLowerCode c) = true := by
  simp only [isHexDigitCode, Bool.or_eq_true, Bool.and_eq_true, decide_eq_true_eq] at h ⊢
  simp only [toLowerCode]
  split_ifs <;> omega

theorem hex_upper_lower (c : Nat) : toUpperCode (toLowerCode c) = toUpperCode c := by
  simp only [toLowerCode, toUpperCode]
  split_ifs <;> omega

theorem hex_toUpper_upperHex {c : Nat} (h : isHexDigitCode c = true) :
    isUpperHexCode (toUpperCode c) = true := by
  simp only [isHexDigitCode, Bool.or_eq_true, Bool.and_eq_true, decide_eq_true_eq] at h
  simp only [isUpperHexCode, Bool.or_eq_true, Bool.and_eq_true, decide_eq_true_eq]
  simp only [toUpperCode]
  split_ifs <;> omega

theorem upperHex_not_ws {c : Nat} (h : isUpperHexCode c = true) : isJsWhitespace c = false := by
  simp only [isUpperHexCode, Bool.or_eq_true, Bool.and_eq_true, decide_eq_true_eq] at h
  simp only [isJsWhitespace, Bool.or_eq_false_iff, decide_eq_false_iff_not]
  omega

theorem upperHex_ne_hash {c : Nat} (h : isUpperHexCode c = true) : c ≠ 35 := by
  simp only [isUpperHexCode, Bool.or_eq_true, Bool.and_eq_true, decide_eq_true_eq] at h
  omega

theorem upperHex_toLower_hex {c : Nat} (h : isUpperHexCode c = true) :
    isHexDigitCode (toLowerCode c) = true := by
  simp only [isUpperHexCode, Bool.or_eq_true, Bool.and_eq_true, decide_eq_true_eq] at h
  simp only [isHexDigitCode, Bool.or_eq_true, Bool.and_eq_true, decide_eq_true_eq]
  simp only [toLowerCode]
  split_ifs <;> omega

theorem upperHex_upper_lower {c : Nat} (h : isUpperHexCode c = true) :
    toUpperCode (toLowerCode c) = c := by
  simp only [isUpperHexCode, Bool.or_eq_true, Bool.and_eq_true, decide_eq_true_eq] at h
  simp only [toLowerCode, toUpperCode]
  split_ifs <;> omega

/-! ### `normalizeHex` structure lemmas -/

theorem dropWhile_eq_self_of_all {p : Nat → Bool} {s : Str} (h : ∀ c ∈ s, p c = false) :
    s.dropWhile p = s := by
  cases s with
  | nil => rfl
  | cons x xs => simp [List.dropWhile_cons, h x (List.mem_cons_self x xs)]

theorem jsTrim_eq_self {s : Str} (h : ∀ c ∈ s, isJsWhitespace c = false) : jsTrim s = s := by
  unfold jsTrim
  rw [dropWhile_eq_self_of_all h,
    dropWhile_eq_self_of_all (fun c hc => h c (List.mem_reverse.mp hc)), List.reverse_reverse]

theorem length_flatMap_pair (l : Str) : (l.flatMap fun c => [c, c]).length = 2 * l.length := by
  induction l with
  | nil => rfl
  | cons x xs ih =>
    simp only [List.flatMap_cons, List.length_append, ih, List.length_cons, List.length_nil]
    omega

theorem mem_flatMap_pair {a : Nat} {l : Str} (h : a ∈ l.flatMap fun c => [c, c]) : a ∈ l := by
  obtain ⟨b, hb, hmem⟩ := List.mem_flatMap.mp h
  have : a = b := by simpa using hmem
  exact this ▸ hb

theorem flatMap_pair_map (g : Nat → Nat) (l : Str) :
    (l.map g).flatMap (fun c => [c, c]) = (l.flatMap fun c => [c, c]).map g := by
  induction l with
  | nil => rfl
  | cons x xs ih => simp only [List.map_cons, List.flatMap_cons, ih, List.map_append]; rfl

/-- The 6-hex-digit branch of `normalizeHex`, for a bare digit string. -/
theorem normalizeHex_six {h : Str} (h6 : h.length = 6)
    (hhex : ∀ c ∈ h, isHexDigitCode c = true) :
    normalizeHex h = 35 :: h.map toUpperCode := by
  have htrim : jsTrim h = h := jsTrim_eq_self (fun c hc => hex_not_ws (hhex c hc))
  have hstrip : stripLeadingHash h = h := by
    cases h with
    | nil => rfl
    | cons x xs =>
      simp [stripLeadingHash, hex_ne_hash (hhex x (List.mem_cons_self x xs))]
  have hall : (h.map toLowerCode).all isHexDigitCode = true := by
    rw [List.all_eq_true]
    intro c hc
    obtain ⟨a, ha, rfl⟩ := List.mem_map.mp hc
    exact hex_toLower_hex (hhex a ha)
  simp only [normalizeHex, htrim, hstrip]
  split_ifs with hc1 hc2
  · simp only [List.map_cons, List.map_map]
    rw [show toUpperCode 35 = 35 from by decide]
    exact congrArg _ (List.map_congr_left fun a _ => hex_upper_lower a)
  · exact absurd ⟨by simp [h6], hall⟩ hc1
  · exact absurd ⟨by simp [h6], hall⟩ hc1

/-- The 3-hex-digit branch of `normalizeHex`: digit duplication then upper-casing. -/
theorem normalizeHex_three {h : Str} (h3 : h.length = 3)
    (hhex : ∀ c ∈ h, isHexDigitCode c = true) :
    normalizeHex h = 35 :: (h.flatMap fun c => [c, c]).map toUpperCode := by
  have htrim : jsTrim h = h := jsTrim_eq_self (fun c hc => hex_not_ws (hhex c hc))
  have hstrip : stripLeadingHash h = h := by
    cases h with
    | nil => simp at h3
    | cons x xs =>
      simp [stripLeadingHash, hex_ne_hash (hhex x (List.mem_cons_self x xs))]
  have hall : (h.map toLowerCode).all isHexDigitCode = true := by
    rw [List.all_eq_true]
    intro c hc
    obtain ⟨a, ha, rfl⟩ := List.mem_map.mp hc
    exact hex_toLower_hex (hhex a ha)
  simp only [normalizeHex, htrim, hstrip]
  split_ifs with hc1 hc2
  · exact absurd hc1.1 (by simp [h3])
  · simp only [List.map_cons, flatMap_pair_map, List.map_map]
    rw [show toUpperCode 35 = 35 from by decide]
    refine congrArg (List.cons 35) (List.map_congr_left fun a ha => ?_)
    exact hex_upper_lower a
  · exact absurd ⟨by simp [h3], hall⟩ hc2

/-- Every output of `normalizeHex` is `#` followed by exactly six upper-case
hex digits. -/
theorem normalizeHex_shape (s : Str) :
    ∃ ds : Str, normalizeHex s = 35 :: ds ∧ ds.length = 6 ∧
      ∀ c ∈ ds, isUpperHexCode c = true := by
  have hupper : ∀ (l : Str), (∀ c ∈ l, isHexDigitCode c = true) →
      ∀ c ∈ l.map toUpperCode, isUpperHexCode c = true := by
    intro l hl c hc
    obtain ⟨a, ha, rfl⟩ := List.mem_map.mp hc
    exact hex_toUpper_upperHex (hl a ha)
  simp only [normalizeHex]
  split_ifs with hc1 hc2
  · refine ⟨_, by rw [List.map_cons, show toUpperCode 35 = 35 from by decide], ?_, ?_⟩
    · have hl := hc1.1
      simp only [List.length_map] at hl ⊢
      exact hl
    · refine hupper _ (fun c hc => ?_)
      exact List.all_eq_true.mp hc1.2 c hc
  · refine ⟨_, by rw [List.map_cons, show toUpperCode 35 = 35 from by decide], ?_, ?_⟩
    · have hl := hc2.1
      simp only [List.length_map] at hl
      simp only [List.length_map, length_flatMap_pair, hl]
    · refine hupper _ (fun c hc => ?_)
      exact List.all_eq_true.mp hc2.2 c (mem_flatMap_pair hc)
  · exact ⟨_, rfl, by decide, by decide⟩

/-- `#` plus six upper-case hex digits is a fixed point of `normalizeHex`. -/
theorem normalizeHex_upper6 (ds : Str) (h6 : ds.length = 6)
    (hhex : ∀ c ∈ ds, isUpperHexCode c = true) : normalizeHex (35 :: ds) = 35 :: ds := by
  have htrim : jsTrim (35 :: ds) = 35 :: ds := by
    refine jsTrim_eq_self (fun c hc => ?_)
    rcases List.mem_cons.mp hc with rfl | hc
    · decide
    · exact upperHex_not_ws (hhex c hc)
  have hall : (ds.map toLowerCode).all isHexDigitCode = true := by
    rw [List.all_eq_true]
    intro c hc
    obtain ⟨a, ha, rfl⟩ := List.mem_map.mp hc
    exact upperHex_toLower_hex (hhex a ha)
  have hstrip : stripLeadingHash (35 :: ds) = ds := by simp [stripLeadingHash]
  simp only [normalizeHex, htrim, hstrip]
  split_ifs with hc1 hc2
  · simp only [List.map_cons, List.map_map]
    rw [show toUpperCode 35 = 35 from by decide,
      show List.map (toUpperCode ∘ toLowerCode) ds = List.map id ds from
        List.map_congr_left fun a ha => upperHex_upper_lower (hhex a ha),
      List.map_id]
  · exact absurd ⟨by simp [h6], hall⟩ hc1
  · exact absurd ⟨by simp [h6], hall⟩ hc1

/-! ### Helper lemmas about `replaceChar` -/

/-- A replaced character does not survive its own replacement pass
when the replacement text avoids it. -/
theorem replaceChar_not_mem_self {c : Nat} {repl : Str} (hc : c ∉ repl) :
    ∀ s : Str, c ∉ replaceChar c repl s := by
  intro s
  induction s with
  | nil => simp [replaceChar]
  | cons x xs ih =>
    by_cases hx : x = c
    · simp only [replaceChar, if_pos hx, List.mem_append]
      rintro (h | h)
      · exact hc h
      · exact ih h
    · simp only [replaceChar, if_neg hx, List.mem_cons]
      rintro (h | h)
      · exact hx h.symm
      · exact ih h

/-- A replacement pass introduces no character that is absent from both the
input and the replacement text. -/
theorem replaceChar_not_mem {c d : Nat} {repl : Str} (hrepl : d ∉ repl) :
    ∀ s : Str, d ∉ s → d ∉ replaceChar c repl s := by
  intro s
  induction s with
  | nil => simp [replaceChar]
  | cons x xs ih =>
    intro hs
    have hxd : d ≠ x := fun h => hs (h ▸ List.mem_cons_self x xs)
    have hxs : d ∉ xs := fun h => hs (List.mem_cons_of_mem x h)
    by_cases hx : x = c
    · simp only [replaceChar, if_pos hx, List.mem_append]
      rintro (h | h)
      · exact hrepl h
      · exact ih hxs h
    · simp only [replaceChar, if_neg hx, List.mem_cons]
      rintro (h | h)
      · exact hxd h
      · exact ih hxs h

/-- The four characters that could open or close an HTML tag or attribute are
gone after `escapeHtml`. -/
theorem escapeHtml_not_mem (s : Str) :
    60 ∉ escapeHtml s ∧ 62 ∉ escapeHtml s ∧ 34 ∉ escapeHtml s ∧ 39 ∉ escapeHtml s := by
  unfold escapeHtml
  refine ⟨?_, ?_, ?_, ?_⟩
  · exact replaceChar_not_mem (by decide) _
      (replaceChar_not_mem (by decide) _
        (replaceChar_not_mem (by decide) _ (replaceChar_not_mem_self (by decide) _)))
  · exact replaceChar_not_mem (by decide) _
      (replaceChar_not_mem (by decide) _ (replaceChar_not_mem_self (by decide) _))
  · exact replaceChar_not_mem (by decide) _ (replaceChar_not_mem_self (by decide) _)
  · exact replaceChar_not_mem_self (by decide) _

/-! ### Claim theorems -/

/-- C1: `escapeHtml` runs before every inline substitution, so raw `<`, `>`, `"`,
`'` typed by the user never survive escaping; in particular rendering
`"<script>alert(1)</script>"` escapes every angle bracket and the output
contains no literal `<script>` tag. -/
theorem c1_escaping_before_inline :
    (∀ s : Str,
      applyInlineFormatting s =
        replaceLink (replaceCodeTick (replaceLazy1 95 (str "<em>") (str "</em>")
          (replaceEmStar (str "<em>") (str "</em>") (replaceLazy2 95 (str "<strong>")
            (str "</strong>") (replaceLazy2 42 (str "<strong>") (str "</strong>")
              (escapeHtml s)))))) ∧
      60 ∉ escapeHtml s ∧ 62 ∉ escapeHtml s ∧ 34 ∉ escapeHtml s ∧ 39 ∉ escapeHtml s) ∧
    renderMarkdown (str "<script>alert(1)</script>") =
      str "<p>&lt;script&gt;alert(1)&lt;/script&gt;</p>" ∧
    occursIn (str "<script>") (renderMarkdown (str "<script>alert(1)</script>")) = false := by
  refine ⟨fun s => ⟨rfl, escapeHtml_not_mem s⟩, by decide, by decide⟩

/-- C8: the two-block document with a heading, a blank line, and a paragraph
with bold and italic renders to exactly the expected concatenated fragments. -/
theorem c8_heading_bold_italic_render :
    renderMarkdown (str "# Title\n\nSome **bold** and _italic_ text.") =
      str "<h1>Title</h1><p>Some <strong>bold</strong> and <em>italic</em> text.</p>" := by
  decide

/-- C4 fails as stated: the valid HSL triple (180, 0, 50) round-trips to hue 0,
an error of 180, far outside the claimed ±1 tolerance. -/
theorem c4_counterexample :
    rgbToHsl (hslToRgb ⟨180, 0, 50⟩) = ⟨0, 0, 50⟩ ∧
    ¬ |(rgbToHsl (hslToRgb ⟨180, 0, 50⟩)).h - 180| ≤ 1 := by
  refine ⟨by decide, by decide⟩

/-- C5 fails as stated: `rgbToHsl (255, 15, 16)` rounds the scaled hue 359.75 up
to 360, which is outside the claimed half-open range [0, 360). -/
theorem c5_counterexample :
    rgbToHsl ⟨255, 15, 16⟩ = ⟨360, 100, 53⟩ ∧ ¬ (rgbToHsl ⟨255, 15, 16⟩).h < 360 := by
  refine ⟨by decide, by decide⟩

/-- C2: `normalizeHex` returns a valid 6-digit string upper-cased with `#` prefix,
expands a valid 3-digit string by digit duplication, falls back to `#529DFF`
otherwise, and always returns `#` followed by exactly six hex digits. -/
theorem c2_normalizeHex_spec :
    (∀ h : Str, h.length = 6 → (∀ c ∈ h, isHexDigitCode c = true) →
      normalizeHex h = 35 :: h.map toUpperCode) ∧
    (∀ h : Str, h.length = 3 → (∀ c ∈ h, isHexDigitCode c = true) →
      normalizeHex h = 35 :: (h.flatMap fun c => [c, c]).map toUpperCode) ∧
    normalizeHex (str "#f09") = str "#FF0099" ∧
    (∀ s : Str, ∃ ds : Str, normalizeHex s = 35 :: ds ∧ ds.length = 6 ∧
      ∀ c ∈ ds, isUpperHexCode c = true) ∧
    normalizeHex (str "zzz") = str "#529DFF" ∧
    normalizeHex [] = str "#529DFF" ∧
    normalizeHex (str "12345") = str "#529DFF" := by
  refine ⟨fun h h6 hhex => normalizeHex_six h6 hhex,
    fun h h3 hhex => normalizeHex_three h3 hhex,
    by decide, normalizeHex_shape, by decide, by decide, by decide⟩

/-- Witness for C2: the 6-digit branch at the concrete input `"a1b2c3"`,
whose normalization is its upper-casing with a `#` prefix. -/
theorem c2_normalizeHex_spec_witness :
    normalizeHex (str "a1b2c3") = str "#A1B2C3" := by
  have h := c2_normalizeHex_spec.1 (str "a1b2c3") (by decide) (by decide)
  exact h.trans (by decide)

/-! ### Hex formatting and parsing lemmas (for C3, C6) -/

set_option maxRecDepth 4000 in
/-- Formatting any channel value below 256 yields exactly the two upper-case hex
digits of its base-16 representation. -/
theorem toHexComponent_ofNat : ∀ m : Nat, m < 256 →
    toHexComponent (m : Int) =
      [toUpperCode (lowerHexDigit (m / 16)), toUpperCode (lowerHexDigit (m % 16))] := by
  decide

theorem hexDigitVal_upper_round : ∀ d : Nat, d < 16 →
    hexDigitVal (toUpperCode (lowerHexDigit d)) = d := by
  decide

theorem upperHex_of_digit : ∀ d : Nat, d < 16 →
    isUpperHexCode (toUpperCode (lowerHexDigit d)) = true := by
  decide

theorem stripLeadingHash_cons_hash (xs : Str) : stripLeadingHash (35 :: xs) = xs := by
  simp [stripLeadingHash]

theorem and255_eq_mod (x : Nat) : x &&& 255 = x % 256 := by
  have h := Nat.and_pow_two_sub_one_eq_mod x 8
  norm_num at h
  exact h

theorem shiftRight16_eq_div (x : Nat) : x >>> 16 = x / 65536 := by
  rw [Nat.shiftRight_eq_div_pow]

theorem shiftRight8_eq_div (x : Nat) : x >>> 8 = x / 256 := by
  rw [Nat.shiftRight_eq_div_pow]

/-- C3: formatting an RGB triple as hex and parsing it back is the identity on
channels in [0, 255]. -/
theorem c3_rgb_hex_roundtrip (r g b : Int)
    (hr : 0 ≤ r ∧ r ≤ 255) (hg : 0 ≤ g ∧ g ≤ 255) (hb : 0 ≤ b ∧ b ≤ 255) :
    hexToRgb (rgbToHex ⟨r, g, b⟩) = ⟨r, g, b⟩ := by
  obtain ⟨r', rfl⟩ : ∃ n : Nat, r = n := ⟨r.toNat, (Int.toNat_of_nonneg hr.1).symm⟩
  obtain ⟨g', rfl⟩ : ∃ n : Nat, g = n := ⟨g.toNat, (Int.toNat_of_nonneg hg.1).symm⟩
  obtain ⟨b', rfl⟩ : ∃ n : Nat, b = n := ⟨b.toNat, (Int.toNat_of_nonneg hb.1).symm⟩
  have hr' : r' < 256 := by exact_mod_cast Int.lt_add_one_of_le hr.2
  have hg' : g' < 256 := by exact_mod_cast Int.lt_add_one_of_le hg.2
  have hb' : b' < 256 := by exact_mod_cast Int.lt_add_one_of_le hb.2
  have hhex : rgbToHex ⟨(r' : Int), g', b'⟩ =
      35 :: [toUpperCode (lowerHexDigit (r' / 16)), toUpperCode (lowerHexDigit (r' % 16)),
        toUpperCode (lowerHexDigit (g' / 16)), toUpperCode (lowerHexDigit (g' % 16)),
        toUpperCode (lowerHexDigit (b' / 16)), toUpperCode (lowerHexDigit (b' % 16))] := by
    simp only [rgbToHex, toHexComponent_ofNat r' hr', toHexComponent_ofNat g' hg',
      toHexComponent_ofNat b' hb']
    rfl
  have hnorm : normalizeHex
      (35 :: [toUpperCode (lowerHexDigit (r' / 16)), toUpperCode (lowerHexDigit (r' % 16)),
        toUpperCode (lowerHexDigit (g' / 16)), toUpperCode (lowerHexDigit (g' % 16)),
        toUpperCode (lowerHexDigit (b' / 16)), toUpperCode (lowerHexDigit (b' % 16))]) =
      35 :: [toUpperCode (lowerHexDigit (r' / 16)), toUpperCode (lowerHexDigit (r' % 16)),
        toUpperCode (lowerHexDigit (g' / 16)), toUpperCode (lowerHexDigit (g' % 16)),
        toUpperCode (lowerHexDigit (b' / 16)), toUpperCode (lowerHexDigit (b' % 16))] := by
    refine normalizeHex_upper6 _ rfl (fun c hc => ?_)
    simp only [List.mem_cons, List.not_mem_nil, or_false] at hc
    rcases hc with rfl | rfl | rfl | rfl | rfl | rfl
    · exact upperHex_of_digit _ (by omega)
    · exact upperHex_of_digit _ (by omega)
    · exact upperHex_of_digit _ (by omega)
    · exact upperHex_of_digit _ (by omega)
    · exact upperHex_of_digit _ (by omega)
    · exact upperHex_of_digit _ (by omega)
  have hparse : parseHexNat
      [toUpperCode (lowerHexDigit (r' / 16)), toUpperCode (lowerHexDigit (r' % 16)),
        toUpperCode (lowerHexDigit (g' / 16)), toUpperCode (lowerHexDigit (g' % 16)),
        toUpperCode (lowerHexDigit (b' / 16)), toUpperCode (lowerHexDigit (b' % 16))] =
      r' * 65536 + g' * 256 + b' := by
    simp only [parseHexNat, List.foldl_cons, List.foldl_nil,
      hexDigitVal_upper_round (r' / 16) (by omega), hexDigitVal_upper_round (r' % 16) (by omega),
      hexDigitVal_upper_round (g' / 16) (by omega), hexDigitVal_upper_round (g' % 16) (by omega),
      hexDigitVal_upper_round (b' / 16) (by omega), hexDigitVal_upper_round (b' % 16) (by omega)]
    omega
  simp only [hexToRgb, hhex, hnorm, stripLeadingHash_cons_hash, hparse, RgbColor.mk.injEq]
  refine ⟨?_, ?_, ?_⟩
  · have hch : ((r' * 65536 + g' * 256 + b') >>> 16) &&& 255 = r' := by
      rw [shiftRight16_eq_div, and255_eq_mod]
      omega
    exact_mod_cast congrArg (Nat.cast : Nat → Int) hch
  · have hch : ((r' * 65536 + g' * 256 + b') >>> 8) &&& 255 = g' := by
      rw [shiftRight8_eq_div, and255_eq_mod]
      omega
    exact_mod_cast congrArg (Nat.cast : Nat → Int) hch
  · have hch : (r' * 65536 + g' * 256 + b') &&& 255 = b' := by
      rw [and255_eq_mod]
      omega
    exact_mod_cast congrArg (Nat.cast : Nat → Int) hch

/-! ### Rounding, clamping and hue-wrapping lemmas -/

theorem jsRound_le {x : ℚ} {b : Int} (h : x ≤ b) : jsRound x ≤ b := by
  unfold jsRound
  have : ⌊x + 1/2⌋ < b + 1 := Int.floor_lt.mpr (by push_cast; linarith)
  omega

theorem le_jsRound {x : ℚ} {a : Int} (h : (a : ℚ) ≤ x) : a ≤ jsRound x := by
  unfold jsRound
  exact Int.le_floor.mpr (by linarith)

theorem jsRound_eq {x : ℚ} {n : Int} (h1 : -(1/2) ≤ x - n) (h2 : x - n < 1/2) :
    jsRound x = n := by
  unfold jsRound
  rw [Int.floor_eq_iff]
  refine ⟨by linarith, by linarith⟩

theorem jsRound_mono {x y : ℚ} (h : x ≤ y) : jsRound x ≤ jsRound y :=
  Int.floor_le_floor (by linarith)

/-- The two-sided floor characterization used to propagate rounding errors. -/
theorem jsRound_err {x : ℚ} : x - 1/2 ≤ (jsRound x : ℚ) ∧ (jsRound x : ℚ) ≤ x + 1/2 := by
  unfold jsRound
  constructor
  · have := Int.lt_floor_add_one (x + 1/2)
    linarith
  · have := Int.floor_le (x + 1/2)
    linarith

theorem clamp_mem {v lo hi : Int} (h : lo ≤ hi) : lo ≤ clamp v lo hi ∧ clamp v lo hi ≤ hi := by
  simp only [clamp, min_def, max_def]
  split_ifs <;> omega

theorem clamp_eq_self {v lo hi : Int} (h1 : lo ≤ v) (h2 : v ≤ hi) : clamp v lo hi = v := by
  simp only [clamp, min_def, max_def]
  split_ifs <;> omega

theorem tmod_neg_dividend (a b : Int) : Int.tmod (-a) b = -Int.tmod a b := by
  rw [Int.tmod_def, Int.tmod_def, Int.neg_tdiv]
  ring

/-- The source's hue wrap `((h % 360) + 360) % 360` lands in `[0, 360)`. -/
theorem jsWrap_mem (h : Int) :
    0 ≤ jsMod (jsMod h 360 + 360) 360 ∧ jsMod (jsMod h 360 + 360) 360 < 360 := by
  simp only [jsMod]
  have hlb : -360 < Int.tmod h 360 := by
    rcases le_or_lt 0 h with hp | hn
    · have := Int.tmod_nonneg 360 hp
      omega
    · have heq : Int.tmod h 360 = -Int.tmod (-h) 360 := by
        rw [← tmod_neg_dividend, neg_neg]
      have := Int.tmod_lt_of_pos (-h) (by omega : (0:Int) < 360)
      omega
  refine ⟨Int.tmod_nonneg _ (by omega), Int.tmod_lt_of_pos _ (by omega)⟩

/-! ### Bounds for `hueToRgb` and the `(p, q)` construction -/

/-- For arguments in the range the call sites produce, `hueToRgb` stays in `[p, q]`. -/
theorem hueToRgb_mem {p q t : ℚ} (hpq : p ≤ q) (ht1 : -(1/3) ≤ t) (ht2 : t ≤ 4/3) :
    p ≤ hueToRgb p q t ∧ hueToRgb p q t ≤ q := by
  simp only [hueToRgb]
  split_ifs <;> constructor <;> nlinarith

/-- Bounds for the chroma endpoints `q` (as computed by `hslToRgb`) and `p = 2l − q`:
`0 ≤ p ≤ q ≤ 1`. -/
theorem pq_bounds {s l : ℚ} (hs0 : 0 ≤ s) (hs1 : s ≤ 1) (hl0 : 0 ≤ l) (hl1 : l ≤ 1) :
    0 ≤ 2 * l - (if l < 1/2 then l * (1 + s) else l + s - l * s) ∧
    2 * l - (if l < 1/2 then l * (1 + s) else l + s - l * s) ≤
      (if l < 1/2 then l * (1 + s) else l + s - l * s) ∧
    (if l < 1/2 then l * (1 + s) else l + s - l * s) ≤ 1 := by
  split_ifs <;> refine ⟨?_, ?_, ?_⟩ <;> nlinarith

/-- Range analysis of `rgbToHsl` for channels in `[0,255]`: hue lands in the
closed interval `[0,360]`, saturation and lightness in `[0,100]`, and achromatic
inputs give hue 0 and saturation 0. Shared by several claims. -/
theorem rgbToHsl_mem (c : RgbColor) (hr : 0 ≤ c.r ∧ c.r ≤ 255)
    (hg : 0 ≤ c.g ∧ c.g ≤ 255) (hb : 0 ≤ c.b ∧ c.b ≤ 255) :
    (0 ≤ (rgbToHsl c).h ∧ (rgbToHsl c).h ≤ 360) ∧
    (0 ≤ (rgbToHsl c).s ∧ (rgbToHsl c).s ≤ 100) ∧
    (0 ≤ (rgbToHsl c).l ∧ (rgbToHsl c).l ≤ 100) ∧
    (c.r = c.g → c.g = c.b → (rgbToHsl c).h = 0 ∧ (rgbToHsl c).s = 0) := by
  simp only [rgbToHsl]
  set rN : ℚ := (c.r : ℚ) / 255 with hrNdef
  set gN : ℚ := (c.g : ℚ) / 255 with hgNdef
  set bN : ℚ := (c.b : ℚ) / 255 with hbNdef
  have hrN0 : 0 ≤ rN := div_nonneg (by exact_mod_cast hr.1) (by norm_num)
  have hgN0 : 0 ≤ gN := div_nonneg (by exact_mod_cast hg.1) (by norm_num)
  have hbN0 : 0 ≤ bN := div_nonneg (by exact_mod_cast hb.1) (by norm_num)
  have hrN1 : rN ≤ 1 := by rw [hrNdef, div_le_one (by norm_num)]; exact_mod_cast hr.2
  have hgN1 : gN ≤ 1 := by rw [hgNdef, div_le_one (by norm_num)]; exact_mod_cast hg.2
  have hbN1 : bN ≤ 1 := by rw [hbNdef, div_le_one (by norm_num)]; exact_mod_cast hb.2
  set mx : ℚ := max rN (max gN bN) with hmxdef
  set mn : ℚ := min rN (min gN bN) with hmndef
  have hmx1 : mx ≤ 1 := max_le hrN1 (max_le hgN1 hbN1)
  have hmn0 : 0 ≤ mn := le_min hrN0 (le_min hgN0 hbN0)
  have hr_mx : rN ≤ mx := le_max_left _ _
  have hg_mx : gN ≤ mx := le_trans (le_max_left _ _) (le_max_right _ _)
  have hb_mx : bN ≤ mx := le_trans (le_max_right _ _) (le_max_right _ _)
  have hmn_r : mn ≤ rN := min_le_left _ _
  have hmn_g : mn ≤ gN := le_trans (min_le_right _ _) (min_le_left _ _)
  have hmn_b : mn ≤ bN := le_trans (min_le_right _ _) (min_le_right _ _)
  have hmnx : mn ≤ mx := le_trans hmn_r hr_mx
  clear_value rN gN bN mx mn
  have hlr : 0 ≤ jsRound ((mx + mn) / 2 * 100) ∧ jsRound ((mx + mn) / 2 * 100) ≤ 100 := by
    constructor
    · exact le_jsRound (by push_cast; linarith)
    · exact jsRound_le (by push_cast; linarith)
  by_cases hmxmn : mx = mn
  · rw [if_pos hmxmn]
    dsimp only
    exact ⟨⟨le_refl 0, by norm_num⟩, ⟨le_refl 0, by norm_num⟩, hlr, fun _ _ => ⟨rfl, rfl⟩⟩
  · rw [if_neg hmxmn]
    dsimp only
    have hd : 0 < mx - mn := sub_pos.mpr (lt_of_le_of_ne hmnx (Ne.symm hmxmn))
    set Sraw : ℚ := if (mx + mn) / 2 > 1/2 then (mx - mn) / (2 - mx - mn)
      else (mx - mn) / (mx + mn) with hSrawdef
    set Hraw : ℚ := if mx = rN then (gN - bN) / (mx - mn) + (if gN < bN then 6 else 0)
      else if mx = gN then (bN - rN) / (mx - mn) + 2
      else (rN - gN) / (mx - mn) + 4 with hHrawdef
    clear_value Sraw Hraw
    have hsB : 0 ≤ Sraw ∧ Sraw ≤ 1 := by
      rw [hSrawdef]
      split_ifs with hhalf
      · have hden : 0 < 2 - mx - mn := by linarith
        exact ⟨div_nonneg hd.le hden.le, by rw [div_le_one hden]; linarith⟩
      · have hden : 0 < mx + mn := by linarith
        exact ⟨div_nonneg hd.le hden.le, by rw [div_le_one hden]; linarith⟩
    have hrawB : 0 ≤ Hraw ∧ Hraw ≤ 6 := by
      have hub : ∀ x y : ℚ, mn ≤ y → x ≤ mx → (x - y) / (mx - mn) ≤ 1 := by
        intro x y hy hx
        rw [div_le_one hd]
        linarith
      have hlb : ∀ x y : ℚ, mn ≤ x → y ≤ mx → -1 ≤ (x - y) / (mx - mn) := by
        intro x y hx hy
        rw [le_div_iff₀ hd]
        linarith
      rw [hHrawdef]
      split_ifs with h1 h2 h3
      · have hnp : (gN - bN) / (mx - mn) ≤ 0 :=
          div_nonpos_of_nonpos_of_nonneg (by linarith) hd.le
        have := hlb gN bN hmn_g hb_mx
        constructor <;> linarith
      · have hnn : 0 ≤ (gN - bN) / (mx - mn) :=
          div_nonneg (by linarith [not_lt.mp h2]) hd.le
        have := hub gN bN hmn_b hg_mx
        constructor <;> linarith
      · have hl := hlb bN rN hmn_b hr_mx
        have hu := hub bN rN hmn_r hb_mx
        constructor <;> linarith
      · have hl := hlb rN gN hmn_r hg_mx
        have hu := hub rN gN hmn_g hr_mx
        constructor <;> linarith
    refine ⟨?_, ?_, hlr, ?_⟩
    · constructor
      · exact le_jsRound (by push_cast; linarith [hrawB.1])
      · exact jsRound_le (by push_cast; linarith [hrawB.2])
    · constructor
      · exact le_jsRound (by push_cast; linarith [hsB.1])
      · exact jsRound_le (by push_cast; linarith [hsB.2])
    · intro h1 h2
      exfalso
      apply hmxmn
      have hrg : rN = gN := by rw [hrNdef, hgNdef, h1]
      have hgb : gN = bN := by rw [hgNdef, hbNdef, h2]
      simp [hmxdef, hmndef, hrg, hgb]

/-! ### Piecewise evaluation of `hueToRgb` and the attainment of `p` and `q` -/

theorem hueToRgb_eval_ramp_up {p q t : ℚ} (h0 : 0 ≤ t) (h : t < 1/6) :
    hueToRgb p q t = p + (q - p) * 6 * t := by
  simp only [hueToRgb]
  rw [if_neg (by linarith : ¬ t < 0), if_neg (by linarith : ¬ t > 1), if_pos h]

theorem hueToRgb_eval_q {p q t : ℚ} (h1 : 1/6 ≤ t) (h2 : t < 1/2) : hueToRgb p q t = q := by
  simp only [hueToRgb]
  rw [if_neg (by linarith : ¬ t < 0), if_neg (by linarith : ¬ t > 1),
    if_neg (by linarith : ¬ t < 1/6), if_pos h2]

theorem hueToRgb_eval_p_high {p q t : ℚ} (h1 : 2/3 ≤ t) (h2 : t ≤ 1) : hueToRgb p q t = p := by
  simp only [hueToRgb]
  rw [if_neg (by linarith : ¬ t < 0), if_neg (by linarith : ¬ t > 1),
    if_neg (by linarith : ¬ t < 1/6), if_neg (by linarith : ¬ t < 1/2),
    if_neg (by linarith : ¬ t < 2/3)]

theorem hueToRgb_eval_neg {p q t : ℚ} (h1 : -(1/3) ≤ t) (h2 : t < 0) : hueToRgb p q t = p := by
  simp only [hueToRgb]
  rw [if_pos h2, if_neg (by linarith : ¬ t + 1 > 1), if_neg (by linarith : ¬ t + 1 < 1/6),
    if_neg (by linarith : ¬ t + 1 < 1/2), if_neg (by linarith : ¬ t + 1 < 2/3)]

theorem hueToRgb_eval_gt1_q {p q t : ℚ} (h1 : 7/6 ≤ t) (h2 : t ≤ 4/3) : hueToRgb p q t = q := by
  simp only [hueToRgb]
  rw [if_neg (by linarith : ¬ t < 0), if_pos (by linarith : t > 1),
    if_neg (by linarith : ¬ t - 1 < 1/6), if_pos (by linarith : t - 1 < 1/2)]

theorem max3_eq_of {a b c q : ℚ} (ha : a ≤ q) (hb : b ≤ q) (hc : c ≤ q)
    (h : a = q ∨ b = q ∨ c = q) : max a (max b c) = q := by
  apply le_antisymm (max_le ha (max_le hb hc))
  rcases h with h | h | h
  · exact h ▸ le_max_left _ _
  · exact h ▸ le_trans (le_max_left _ _) (le_max_right _ _)
  · exact h ▸ le_trans (le_max_right _ _) (le_max_right _ _)

theorem min3_eq_of {a b c p : ℚ} (ha : p ≤ a) (hb : p ≤ b) (hc : p ≤ c)
    (h : a = p ∨ b = p ∨ c = p) : min a (min b c) = p := by
  refine le_antisymm ?_ (le_min ha (le_min hb hc))
  rcases h with h | h | h
  · exact h ▸ min_le_left _ _
  · exact h ▸ le_trans (min_le_right _ _) (min_le_left _ _)
  · exact h ▸ le_trans (min_le_right _ _) (min_le_right _ _)

/-- The three hue fractions `hk + 1/3`, `hk`, `hk − 1/3` are spaced exactly one
third apart, so one of them always lands on the `q` plateau and one on the `p`
plateau: the channel maximum is exactly `q` and the minimum exactly `p`. -/
theorem hueToRgb_attains {p q hk : ℚ} (hpq : p ≤ q) (h0 : 0 ≤ hk) (h1 : hk < 1) :
    max (hueToRgb p q (hk + 1/3)) (max (hueToRgb p q hk) (hueToRgb p q (hk - 1/3))) = q ∧
    min (hueToRgb p q (hk + 1/3)) (min (hueToRgb p q hk) (hueToRgb p q (hk - 1/3))) = p := by
  have memR := hueToRgb_mem hpq (by linarith : -(1/3) ≤ hk + 1/3) (by linarith : hk + 1/3 ≤ 4/3)
  have memG := hueToRgb_mem hpq (by linarith : -(1/3) ≤ hk) (by linarith : hk ≤ 4/3)
  have memB := hueToRgb_mem hpq (by linarith : -(1/3) ≤ hk - 1/3) (by linarith : hk - 1/3 ≤ 4/3)
  refine ⟨max3_eq_of memR.2 memG.2 memB.2 ?_, min3_eq_of memR.1 memG.1 memB.1 ?_⟩
  · rcases lt_or_le hk (1/6) with hc | hc1
    · exact Or.inl (hueToRgb_eval_q (by linarith) (by linarith))
    rcases lt_or_le hk (1/2) with hc | hc2
    · exact Or.inr (Or.inl (hueToRgb_eval_q (by linarith) (by linarith)))
    rcases lt_or_le hk (5/6) with hc | hc3
    · exact Or.inr (Or.inr (hueToRgb_eval_q (by linarith) (by linarith)))
    · exact Or.inl (hueToRgb_eval_gt1_q (by linarith) (by linarith))
  · rcases lt_or_le hk (1/3) with hc | hc1
    · exact Or.inr (Or.inr (hueToRgb_eval_neg (by linarith) (by linarith)))
    rcases le_or_lt hk (2/3) with hc | hc2
    · exact Or.inl (hueToRgb_eval_p_high (by linarith) (by linarith))
    · exact Or.inr (Or.inl (hueToRgb_eval_p_high (by linarith) (by linarith)))

/-- C4 (amended): for every HSL triple within valid ranges, converting to RGB
and back recovers the lightness exactly (in particular within the claimed ±1);
hue and saturation are not recovered within ±1 in general (see the
counterexample). The key facts are that the channel maximum and minimum are
the rounded `q·255` and `p·255` with `p + q = 2l`, so the rounding errors
cancel to under one half of a lightness percent. -/
theorem c4_lightness_roundtrip (H S L : Int) (_hH : 0 ≤ H ∧ H < 360)
    (hS : 0 ≤ S ∧ S ≤ 100) (hL : 0 ≤ L ∧ L ≤ 100) :
    (rgbToHsl (hslToRgb ⟨H, S, L⟩)).l = L := by
  have hclampS : clamp S 0 100 = S := clamp_eq_self hS.1 hS.2
  have hclampL : clamp L 0 100 = L := clamp_eq_self hL.1 hL.2
  have hL0q : (0:ℚ) ≤ (L : ℚ) / 100 := div_nonneg (by exact_mod_cast hL.1) (by norm_num)
  have hL1q : (L : ℚ) / 100 ≤ 1 := by
    rw [div_le_one (by norm_num)]
    exact_mod_cast hL.2
  have hS0q : (0:ℚ) ≤ (S : ℚ) / 100 := div_nonneg (by exact_mod_cast hS.1) (by norm_num)
  have hS1q : (S : ℚ) / 100 ≤ 1 := by
    rw [div_le_one (by norm_num)]
    exact_mod_cast hS.2
  simp only [hslToRgb]
  rw [hclampS, hclampL]
  by_cases hsat : (S : ℚ) / 100 = 0
  · rw [if_pos hsat]
    set G : Int := jsRound ((L : ℚ) / 100 * 255) with hGdef
    have hGb := jsRound_err (x := (L : ℚ) / 100 * 255)
    rw [← hGdef] at hGb
    clear_value G
    simp only [rgbToHsl]
    rw [max_self, max_self, min_self, min_self]
    exact jsRound_eq (by linarith [hGb.1, hGb.2]) (by linarith [hGb.1, hGb.2])
  · rw [if_neg hsat]
    set Q : ℚ := if (L : ℚ) / 100 < 1/2 then (L : ℚ) / 100 * (1 + (S : ℚ) / 100)
      else (L : ℚ) / 100 + (S : ℚ) / 100 - (L : ℚ) / 100 * ((S : ℚ) / 100) with hQdef
    set Pv : ℚ := 2 * ((L : ℚ) / 100) - Q with hPdef
    set hkv : ℚ := (jsMod (jsMod H 360 + 360) 360 : ℚ) / 360 with hkdef
    have hwrap := jsWrap_mem H
    have hk0 : (0:ℚ) ≤ hkv := by
      rw [hkdef]
      exact div_nonneg (by exact_mod_cast hwrap.1) (by norm_num)
    have hk1 : hkv < 1 := by
      rw [hkdef, div_lt_one (by norm_num)]
      exact_mod_cast hwrap.2
    have hpq := pq_bounds hS0q hS1q hL0q hL1q
    rw [← hQdef] at hpq
    rw [← hPdef] at hpq
    have hat := hueToRgb_attains (p := Pv) (q := Q) hpq.2.1 hk0 hk1
    have memR := hueToRgb_mem (p := Pv) (q := Q) hpq.2.1
      (by linarith : -(1/3) ≤ hkv + 1/3) (by linarith : hkv + 1/3 ≤ 4/3)
    have memG := hueToRgb_mem (p := Pv) (q := Q) hpq.2.1
      (by linarith : -(1/3) ≤ hkv) (by linarith : hkv ≤ 4/3)
    have memB := hueToRgb_mem (p := Pv) (q := Q) hpq.2.1
      (by linarith : -(1/3) ≤ hkv - 1/3) (by linarith : hkv - 1/3 ≤ 4/3)
    set vR : ℚ := hueToRgb Pv Q (hkv + 1/3) with hvRdef
    set vG : ℚ := hueToRgb Pv Q hkv with hvGdef
    set vB : ℚ := hueToRgb Pv Q (hkv - 1/3) with hvBdef
    have errR := jsRound_err (x := vR * 255)
    have errG := jsRound_err (x := vG * 255)
    have errB := jsRound_err (x := vB * 255)
    set AR : Int := jsRound (vR * 255) with hARdef
    set AG : Int := jsRound (vG * 255) with hAGdef
    set AB : Int := jsRound (vB * 255) with hABdef
    have hmaxd : vR = Q ∨ vG = Q ∨ vB = Q := by
      rcases max_choice vR (max vG vB) with h | h
      · left
        rw [← hat.1, h]
      · rcases max_choice vG vB with h2 | h2
        · right; left
          rw [← hat.1, h, h2]
        · right; right
          rw [← hat.1, h, h2]
    have hmind : vR = Pv ∨ vG = Pv ∨ vB = Pv := by
      rcases min_choice vR (min vG vB) with h | h
      · left
        rw [← hat.2, h]
      · rcases min_choice vG vB with h2 | h2
        · right; left
          rw [← hat.2, h, h2]
        · right; right
          rw [← hat.2, h, h2]
    clear_value vR vG vB AR AG AB Q Pv hkv
    simp only [rgbToHsl]
    have hub_mx : max ((AR:ℚ)/255) (max ((AG:ℚ)/255) ((AB:ℚ)/255)) ≤ Q + 1/510 := by
      refine max_le (by linarith [errR.2, memR.2]) (max_le ?_ ?_)
      · linarith [errG.2, memG.2]
      · linarith [errB.2, memB.2]
    have hlb_mx : Q - 1/510 ≤ max ((AR:ℚ)/255) (max ((AG:ℚ)/255) ((AB:ℚ)/255)) := by
      rcases hmaxd with h | h | h
      · have hstep : Q - 1/510 ≤ (AR:ℚ)/255 := by
          rw [h] at errR
          linarith [errR.1]
        exact le_trans hstep (le_max_left _ _)
      · have hstep : Q - 1/510 ≤ (AG:ℚ)/255 := by
          rw [h] at errG
          linarith [errG.1]
        exact le_trans hstep (le_trans (le_max_left _ _) (le_max_right _ _))
      · have hstep : Q - 1/510 ≤ (AB:ℚ)/255 := by
          rw [h] at errB
          linarith [errB.1]
        exact le_trans hstep (le_trans (le_max_right _ _) (le_max_right _ _))
    have hub_mn : min ((AR:ℚ)/255) (min ((AG:ℚ)/255) ((AB:ℚ)/255)) ≤ Pv + 1/510 := by
      rcases hmind with h | h | h
      · have hstep : (AR:ℚ)/255 ≤ Pv + 1/510 := by
          rw [h] at errR
          linarith [errR.2]
        exact le_trans (min_le_left _ _) hstep
      · have hstep : (AG:ℚ)/255 ≤ Pv + 1/510 := by
          rw [h] at errG
          linarith [errG.2]
        exact le_trans (le_trans (min_le_right _ _) (min_le_left _ _)) hstep
      · have hstep : (AB:ℚ)/255 ≤ Pv + 1/510 := by
          rw [h] at errB
          linarith [errB.2]
        exact le_trans (le_trans (min_le_right _ _) (min_le_right _ _)) hstep
    have hlb_mn : Pv - 1/510 ≤ min ((AR:ℚ)/255) (min ((AG:ℚ)/255) ((AB:ℚ)/255)) := by
      refine le_min (by linarith [errR.1, memR.1]) (le_min ?_ ?_)
      · linarith [errG.1, memG.1]
      · linarith [errB.1, memB.1]
    have hsum : Pv + Q = 2 * ((L : ℚ) / 100) := by
      rw [hPdef]
      ring
    exact jsRound_eq (by linarith) (by linarith)

/-- Witness for C4 (amended): the lightness of HSL(214, 100, 66) survives the
round trip exactly. -/
theorem c4_lightness_roundtrip_witness :
    (rgbToHsl (hslToRgb ⟨214, 100, 66⟩)).l = 66 :=
  c4_lightness_roundtrip 214 100 66 (by omega) (by omega) (by omega)

/-- C5 (amended): for channels in [0,255], `rgbToHsl` returns an integer hue in
the closed range [0,360] — the value 360 is attainable, e.g. for rgb(255,15,16) —
integer saturation and lightness in [0,100], and hue 0 with saturation 0 for
achromatic inputs. -/
theorem c5_rgbToHsl_ranges (r g b : Int)
    (hr : 0 ≤ r ∧ r ≤ 255) (hg : 0 ≤ g ∧ g ≤ 255) (hb : 0 ≤ b ∧ b ≤ 255) :
    (0 ≤ (rgbToHsl ⟨r, g, b⟩).h ∧ (rgbToHsl ⟨r, g, b⟩).h ≤ 360) ∧
    (0 ≤ (rgbToHsl ⟨r, g, b⟩).s ∧ (rgbToHsl ⟨r, g, b⟩).s ≤ 100) ∧
    (0 ≤ (rgbToHsl ⟨r, g, b⟩).l ∧ (rgbToHsl ⟨r, g, b⟩).l ≤ 100) ∧
    (r = g → g = b → (rgbToHsl ⟨r, g, b⟩).h = 0 ∧ (rgbToHsl ⟨r, g, b⟩).s = 0) :=
  rgbToHsl_mem ⟨r, g, b⟩ hr hg hb

/-- Witness for C5: the range statement at the boundary input rgb(255,15,16)
and the achromatic statement at rgb(9,9,9). -/
theorem c5_rgbToHsl_ranges_witness :
    (0 ≤ (rgbToHsl ⟨255, 15, 16⟩).h ∧ (rgbToHsl ⟨255, 15, 16⟩).h ≤ 360) ∧
    ((rgbToHsl ⟨9, 9, 9⟩).h = 0 ∧ (rgbToHsl ⟨9, 9, 9⟩).s = 0) :=
  ⟨(c5_rgbToHsl_ranges 255 15 16 (by omega) (by omega) (by omega)).1,
    (c5_rgbToHsl_ranges 9 9 9 (by omega) (by omega) (by omega)).2.2.2 rfl rfl⟩

/-- Channel bounds for `hslToRgb`, for arbitrary (even out-of-range) integer HSL
inputs, together with the gray case for zero clamped saturation. Shared by
several claims. -/
theorem hslToRgb_bounds (c : HslColor) :
    (0 ≤ (hslToRgb c).r ∧ (hslToRgb c).r ≤ 255) ∧
    (0 ≤ (hslToRgb c).g ∧ (hslToRgb c).g ≤ 255) ∧
    (0 ≤ (hslToRgb c).b ∧ (hslToRgb c).b ≤ 255) ∧
    (clamp c.s 0 100 = 0 →
      hslToRgb c = ⟨jsRound ((clamp c.l 0 100 : ℚ) / 100 * 255),
        jsRound ((clamp c.l 0 100 : ℚ) / 100 * 255),
        jsRound ((clamp c.l 0 100 : ℚ) / 100 * 255)⟩) := by
  have hsc : 0 ≤ clamp c.s 0 100 ∧ clamp c.s 0 100 ≤ 100 := clamp_mem (by omega)
  have hlc : 0 ≤ clamp c.l 0 100 ∧ clamp c.l 0 100 ≤ 100 := clamp_mem (by omega)
  have hs0 : (0:ℚ) ≤ (clamp c.s 0 100 : ℚ) / 100 := by
    apply div_nonneg _ (by norm_num)
    exact_mod_cast hsc.1
  have hs1 : (clamp c.s 0 100 : ℚ) / 100 ≤ 1 := by
    rw [div_le_one (by norm_num)]
    exact_mod_cast hsc.2
  have hl0 : (0:ℚ) ≤ (clamp c.l 0 100 : ℚ) / 100 := by
    apply div_nonneg _ (by norm_num)
    exact_mod_cast hlc.1
  have hl1 : (clamp c.l 0 100 : ℚ) / 100 ≤ 1 := by
    rw [div_le_one (by norm_num)]
    exact_mod_cast hlc.2
  have hwrap := jsWrap_mem c.h
  have hk0 : (0:ℚ) ≤ (jsMod (jsMod c.h 360 + 360) 360 : ℚ) / 360 := by
    apply div_nonneg _ (by norm_num)
    exact_mod_cast hwrap.1
  have hk1 : (jsMod (jsMod c.h 360 + 360) 360 : ℚ) / 360 < 1 := by
    rw [div_lt_one (by norm_num)]
    exact_mod_cast hwrap.2
  simp only [hslToRgb]
  by_cases hsat : (clamp c.s 0 100 : ℚ) / 100 = 0
  · rw [if_pos hsat]
    refine ⟨⟨?_, ?_⟩, ⟨?_, ?_⟩, ⟨?_, ?_⟩, fun _ => rfl⟩ <;>
      first
        | exact le_jsRound (by push_cast; nlinarith)
        | exact jsRound_le (by push_cast; nlinarith)
  · rw [if_neg hsat]
    set L' : ℚ := (clamp c.l 0 100 : ℚ) / 100 with hLdef
    set S' : ℚ := (clamp c.s 0 100 : ℚ) / 100 with hSdef
    set Q : ℚ := if L' < 1/2 then L' * (1 + S') else L' + S' - L' * S' with hQdef
    set hk : ℚ := (jsMod (jsMod c.h 360 + 360) 360 : ℚ) / 360 with hkdef
    have hpq := pq_bounds hs0 hs1 hl0 hl1
    rw [← hQdef] at hpq
    have hchan : ∀ t : ℚ, -(1/3) ≤ t → t ≤ 4/3 →
        0 ≤ jsRound (hueToRgb (2 * L' - Q) Q t * 255) ∧
        jsRound (hueToRgb (2 * L' - Q) Q t * 255) ≤ 255 := by
      intro t ht1 ht2
      have hmem := hueToRgb_mem hpq.2.1 ht1 ht2
      constructor
      · exact le_jsRound (by push_cast; nlinarith [hpq.1, hmem.1])
      · exact jsRound_le (by push_cast; nlinarith [hpq.2.2, hmem.2])
    exact ⟨hchan _ (by linarith) (by linarith),
      hchan _ (by linarith) (by linarith),
      hchan _ (by linarith) (by linarith),
      fun h0 => absurd (by rw [hSdef, h0]; norm_num) hsat⟩

/-- C7: `hslToRgb` clamps saturation and lightness to `[0,100]`, wraps the hue,
and always returns integer channels in `[0,255]`; when the clamped saturation is
zero all three channels are the rounded gray `round(l/100·255)`; `rgbToHex`, in
contrast, performs no clamping of its own (an out-of-range channel such as 300 is
formatted as-is, yielding `#12C0000`). -/
theorem c7_hslToRgb_clamps_and_bounds :
    (∀ c : HslColor,
      (0 ≤ (hslToRgb c).r ∧ (hslToRgb c).r ≤ 255) ∧
      (0 ≤ (hslToRgb c).g ∧ (hslToRgb c).g ≤ 255) ∧
      (0 ≤ (hslToRgb c).b ∧ (hslToRgb c).b ≤ 255) ∧
      (clamp c.s 0 100 = 0 →
        hslToRgb c = ⟨jsRound ((clamp c.l 0 100 : ℚ) / 100 * 255),
          jsRound ((clamp c.l 0 100 : ℚ) / 100 * 255),
          jsRound ((clamp c.l 0 100 : ℚ) / 100 * 255)⟩)) ∧
    rgbToHex ⟨300, 0, 0⟩ = str "#12C0000" :=
  ⟨hslToRgb_bounds, by decide⟩

/-- Every `rgbToHex` of in-range channels is a `#`-prefixed 6-digit upper-case
hex string. -/
theorem rgbToHex_valid (c : RgbColor) (hr : 0 ≤ c.r ∧ c.r ≤ 255)
    (hg : 0 ≤ c.g ∧ c.g ≤ 255) (hb : 0 ≤ c.b ∧ c.b ≤ 255) :
    isPaletteHex (rgbToHex c) = true := by
  obtain ⟨r', hrr⟩ : ∃ n : Nat, c.r = n := ⟨c.r.toNat, (Int.toNat_of_nonneg hr.1).symm⟩
  obtain ⟨g', hgg⟩ : ∃ n : Nat, c.g = n := ⟨c.g.toNat, (Int.toNat_of_nonneg hg.1).symm⟩
  obtain ⟨b', hbb⟩ : ∃ n : Nat, c.b = n := ⟨c.b.toNat, (Int.toNat_of_nonneg hb.1).symm⟩
  have hr' : r' < 256 := by
    have := hr.2
    rw [hrr] at this
    exact_mod_cast Int.lt_add_one_of_le this
  have hg' : g' < 256 := by
    have := hg.2
    rw [hgg] at this
    exact_mod_cast Int.lt_add_one_of_le this
  have hb' : b' < 256 := by
    have := hb.2
    rw [hbb] at this
    exact_mod_cast Int.lt_add_one_of_le this
  simp only [rgbToHex, hrr, hgg, hbb, toHexComponent_ofNat r' hr', toHexComponent_ofNat g' hg',
    toHexComponent_ofNat b' hb']
  simp [isPaletteHex, upperHex_of_digit _ (by omega : r' / 16 < 16),
    upperHex_of_digit _ (by omega : r' % 16 < 16), upperHex_of_digit _ (by omega : g' / 16 < 16),
    upperHex_of_digit _ (by omega : g' % 16 < 16), upperHex_of_digit _ (by omega : b' / 16 < 16),
    upperHex_of_digit _ (by omega : b' % 16 < 16)]

/-- Every palette entry (an `hslToHex` output) is a valid hex string. -/
theorem hslToHex_valid (c : HslColor) : isPaletteHex (hslToHex c) = true := by
  have hbnd := hslToRgb_bounds c
  exact rgbToHex_valid _ hbnd.1 hbnd.2.1 hbnd.2.2.1

/-- C6: `generatePalette` yields exactly 5 shades and 3 complementary tones, in
the order of the offset lists with the stated clamps and hue rotation; every
entry is a `#`-prefixed 6-digit upper-case hex string; and for the base
`#529DFF` the middle shade (offset 0) differs from the normalized base by at
most 4 per RGB channel. -/
theorem c6_generatePalette_spec :
    (∀ baseHex : Str,
      (generatePalette baseHex).shades.length = 5 ∧
      (generatePalette baseHex).complementary.length = 3 ∧
      (generatePalette baseHex).shades = shadeOffsets.map (fun offset =>
        hslToHex { h := (rgbToHsl (hexToRgb baseHex)).h
                   s := clamp ((rgbToHsl (hexToRgb baseHex)).s + offset / 2) 12 96
                   l := clamp ((rgbToHsl (hexToRgb baseHex)).l + offset) 8 94 }) ∧
      (generatePalette baseHex).complementary = complementaryOffsets.map (fun offset =>
        hslToHex { h := jsMod ((rgbToHsl (hexToRgb baseHex)).h + 180 + offset + 360) 360
                   s := clamp ((rgbToHsl (hexToRgb baseHex)).s + offset / 4) 18 96
                   l := clamp ((rgbToHsl (hexToRgb baseHex)).l + offset / 2) 10 92 }) ∧
      (∀ x ∈ (generatePalette baseHex).shades, isPaletteHex x = true) ∧
      (∀ x ∈ (generatePalette baseHex).complementary, isPaletteHex x = true)) ∧
    (generatePalette (str "#529DFF")).shades.get? 2 = some (str "#559DFC") ∧
    |(hexToRgb (str "#559DFC")).r - (hexToRgb (str "#529DFF")).r| ≤ 4 ∧
    |(hexToRgb (str "#559DFC")).g - (hexToRgb (str "#529DFF")).g| ≤ 4 ∧
    |(hexToRgb (str "#559DFC")).b - (hexToRgb (str "#529DFF")).b| ≤ 4 := by
  refine ⟨fun baseHex => ⟨?_, ?_, rfl, rfl, ?_, ?_⟩, by decide, by decide, by decide, by decide⟩
  · simp [generatePalette, shadeOffsets]
  · simp [generatePalette, complementaryOffsets]
  · intro x hx
    simp only [generatePalette, List.mem_map] at hx
    obtain ⟨offset, _, rfl⟩ := hx
    exact hslToHex_valid _
  · intro x hx
    simp only [generatePalette, List.mem_map] at hx
    obtain ⟨offset, _, rfl⟩ := hx
    exact hslToHex_valid _

/-- Witness for C6: the palette of the default base color has 5 shades, 3
complementary tones, and its first shade is a valid hex string. -/
theorem c6_generatePalette_spec_witness :
    (generatePalette (str "#529DFF")).shades.length = 5 ∧
    (generatePalette (str "#529DFF")).complementary.length = 3 ∧
    isPaletteHex (str "#0E56B4") = true := by
  have h := c6_generatePalette_spec.1 (str "#529DFF")
  exact ⟨h.1, h.2.1, h.2.2.2.2.1 (str "#0E56B4") (by decide)⟩

/-- Witness for C7: an out-of-range input (hue 400, saturation −5, lightness 150)
still produces channels in range, and zero saturation yields the rounded gray. -/
theorem c7_hslToRgb_clamps_and_bounds_witness :
    (0 ≤ (hslToRgb ⟨400, -5, 150⟩).r ∧ (hslToRgb ⟨400, -5, 150⟩).r ≤ 255) ∧
    hslToRgb ⟨123, 0, 50⟩ = ⟨128, 128, 128⟩ := by
  refine ⟨(c7_hslToRgb_clamps_and_bounds.1 ⟨400, -5, 150⟩).1, ?_⟩
  have h := (c7_hslToRgb_clamps_and_bounds.1 ⟨123, 0, 50⟩).2.2.2 (by decide)
  exact h.trans (by decide)

/-- C10: `normalizeHex` is idempotent — every output (a `#`-prefixed 6-digit
upper-case hex string, including the fallback) is a fixed point. -/
theorem c10_normalizeHex_idempotent (s : Str) :
    normalizeHex (normalizeHex s) = normalizeHex s := by
  obtain ⟨ds, heq, h6, hhex⟩ := normalizeHex_shape s
  rw [heq, normalizeHex_upper6 ds h6 hhex]

/-! ### Line-splitting lemmas and the fenced-code fold (for C9) -/

theorem replaceCRLF_eq_self : ∀ {s : Str}, (∀ c ∈ s, c ≠ 13) → replaceCRLF s = s
  | [], _ => rfl
  | [x], _ => rfl
  | x :: y :: rest, h => by
    have hx : x ≠ 13 := h x (List.mem_cons_self x _)
    rw [replaceCRLF, if_neg (by tauto)]
    exact congrArg _ (replaceCRLF_eq_self (fun c hc => h c (List.mem_cons_of_mem x hc)))

theorem splitNl_no_newline : ∀ {s : Str}, (∀ c ∈ s, c ≠ 10) → splitNl s = [s]
  | [], _ => rfl
  | x :: rest, h => by
    rw [splitNl, if_neg (h x (List.mem_cons_self x _)),
      splitNl_no_newline (fun c hc => h c (List.mem_cons_of_mem x hc))]

theorem splitNl_append_cons {a : Str} (rest : Str) (h : ∀ c ∈ a, c ≠ 10) :
    splitNl (a ++ 10 :: rest) = a :: splitNl rest := by
  induction a with
  | nil => simp [splitNl]
  | cons x a' ih =>
    rw [List.cons_append, splitNl, if_neg (h x (List.mem_cons_self x _)),
      ih (fun c hc => h c (List.mem_cons_of_mem x hc))]

theorem splitNl_joinNl_append : ∀ {ls : List Str}, ls ≠ [] →
    (∀ l ∈ ls, ∀ c ∈ l, c ≠ 10) → ∀ t : Str,
    splitNl (joinNl ls ++ 10 :: t) = ls ++ splitNl t
  | [], hne, _, _ => absurd rfl hne
  | [l], _, h, t => by
    rw [joinNl, splitNl_append_cons t (h l (List.mem_cons_self l _))]
    rfl
  | l :: l2 :: rest, _, h, t => by
    rw [joinNl, List.append_assoc, List.cons_append]
    rw [splitNl_append_cons _ (h l (List.mem_cons_self l _))]
    rw [splitNl_joinNl_append (List.cons_ne_nil l2 rest)
      (fun a ha c hc => h a (List.mem_cons_of_mem l ha) c hc) t]
    rfl

theorem splitNl_joinNl : ∀ {ls : List Str}, ls ≠ [] →
    (∀ l ∈ ls, ∀ c ∈ l, c ≠ 10) → splitNl (joinNl ls) = ls
  | [], hne, _ => absurd rfl hne
  | [l], _, h => by
    rw [joinNl, splitNl_no_newline (h l (List.mem_cons_self l _))]
  | l :: l2 :: rest, _, h => by
    rw [joinNl, splitNl_append_cons _ (h l (List.mem_cons_self l _))]
    rw [show splitNl (joinNl (l2 :: rest)) = l2 :: rest from
      splitNl_joinNl (List.cons_ne_nil l2 rest)
        (fun a ha c hc => h a (List.mem_cons_of_mem l ha) c hc)]

/-- While inside a fence, every non-fence line is appended verbatim to the code
buffer and nothing else changes. -/
theorem foldl_processLine_code (ls : List Str) (h : ∀ l ∈ ls, lineIsFence l = false) :
    ∀ parts cb : List Str,
    ls.foldl processLine ⟨parts, [], [], true, cb⟩ = ⟨parts, [], [], true, cb ++ ls⟩ := by
  induction ls with
  | nil => intro parts cb; simp
  | cons l ls' ih =>
    intro parts cb
    have hf : lineIsFence l = false := h l (List.mem_cons_self l _)
    have hstep : processLine ⟨parts, [], [], true, cb⟩ l = ⟨parts, [], [], true, cb ++ [l]⟩ := by
      simp [processLine, hf]
    rw [List.foldl_cons, hstep, ih (fun a ha => h a (List.mem_cons_of_mem l ha))]
    simp

/-- C9: the lines of a fenced block are emitted verbatim inside a single
`<pre><code>` fragment, HTML-escaped exactly once with no inline formatting; and
an unterminated fence still flushes the accumulated buffer at end of input. -/
theorem c9_fenced_code_block (ls : List Str) (hne : ls ≠ [])
    (hl : ∀ l ∈ ls, (∀ c ∈ l, c ≠ 10 ∧ c ≠ 13) ∧ lineIsFence l = false) :
    renderMarkdown (str "```" ++ 10 :: (joinNl ls ++ 10 :: str "```")) =
      str "<pre><code>" ++ escapeHtml (joinNl ls) ++ str "</code></pre>" ∧
    renderMarkdown (str "```" ++ 10 :: joinNl ls) =
      str "<pre><code>" ++ escapeHtml (joinNl ls) ++ str "</code></pre>" := by
  have h10 : ∀ l ∈ ls, ∀ c ∈ l, c ≠ 10 := fun l a c hc => ((hl l a).1 c hc).1
  have h13join : ∀ c ∈ joinNl ls, c ≠ 13 := by
    intro c hc
    clear hne
    induction ls with
    | nil => cases hc
    | cons l rest ih =>
      cases rest with
      | nil =>
        rw [joinNl] at hc
        exact ((hl l (List.mem_cons_self l _)).1 c hc).2
      | cons l2 rest2 =>
        rw [joinNl, List.mem_append] at hc
        rcases hc with hc | hc
        · exact ((hl l (List.mem_cons_self l _)).1 c hc).2
        · rcases List.mem_cons.mp hc with rfl | hc
          · decide
          · exact ih (fun a ha => hl a (List.mem_cons_of_mem l ha))
              (fun a ha c2 hc2 => h10 a (List.mem_cons_of_mem l ha) c2 hc2) hc
  have hfence10 : ∀ c ∈ str "```", c ≠ (10:Nat) := by decide
  have hfencefence : lineIsFence (str "```") = true := by decide
  have hfold := foldl_processLine_code ls (fun l a => (hl l a).2) [] []
  have hfirst : processLine initialMDState (str "```") = ⟨[], [], [], true, []⟩ := by decide
  have hsecond : processLine ⟨[], [], [], true, ls⟩ (str "```") =
      { flushCode ⟨[], [], [], true, ls⟩ with inCodeBlock := false } := by
    simp [processLine, hfencefence]
  have hflush : flushCode ⟨[], [], [], true, ls⟩ =
      ⟨[str "<pre><code>" ++ escapeHtml (joinNl ls) ++ str "</code></pre>"], [], [], true, []⟩ := by
    simp [flushCode, hne]
  constructor
  · have h13 : ∀ c ∈ str "```" ++ 10 :: (joinNl ls ++ 10 :: str "```"), c ≠ 13 := by
      intro c hc
      simp only [List.mem_append, List.mem_cons] at hc
      rcases hc with hc | rfl | hc | rfl | hc
      · revert hc
        revert c
        decide
      · decide
      · exact h13join c hc
      · decide
      · revert hc
        revert c
        decide
    simp only [renderMarkdown]
    rw [replaceCRLF_eq_self h13, splitNl_append_cons _ hfence10,
      splitNl_joinNl_append hne h10 (str "```"), splitNl_no_newline hfence10,
      List.foldl_cons, hfirst, List.foldl_append, hfold, List.nil_append,
      List.foldl_cons, List.foldl_nil, hsecond, hflush]
    simp [flushParagraph, flushList, flushCode]
  · have h13 : ∀ c ∈ str "```" ++ 10 :: joinNl ls, c ≠ 13 := by
      intro c hc
      simp only [List.mem_append, List.mem_cons] at hc
      rcases hc with hc | rfl | hc
      · revert hc
        revert c
        decide
      · decide
      · exact h13join c hc
    simp only [renderMarkdown]
    rw [replaceCRLF_eq_self h13, splitNl_append_cons _ hfence10, splitNl_joinNl hne h10,
      List.foldl_cons, hfirst, hfold, List.nil_append]
    simp [hflush, flushParagraph, flushList]

/-- Witness for C3: the concrete channel triple (82, 157, 255) survives the
hex round-trip. -/
theorem c3_rgb_hex_roundtrip_witness :
    hexToRgb (rgbToHex ⟨82, 157, 255⟩) = ⟨82, 157, 255⟩ :=
  c3_rgb_hex_roundtrip 82 157 255 (by omega) (by omega) (by omega)

/-- Witness for C9: a closed fenced block and an unclosed fence both render as
literal escaped code. -/
theorem c9_fenced_code_block_witness :
    renderMarkdown (str "```\n**not bold**\n```") = str "<pre><code>**not bold**</code></pre>" ∧
    renderMarkdown (str "```\ncode line") = str "<pre><code>code line</code></pre>" := by
  have h := c9_fenced_code_block [str "**not bold**"] (by decide) (by decide)
  have h2 := c9_fenced_code_block [str "code line"] (by decide) (by decide)
  constructor
  · exact ((congrArg renderMarkdown (by decide)).trans h.1).trans (by decide)
  · exact ((congrArg renderMarkdown (by decide)).trans h2.2).trans (by decide)

end VibeHub
